import Mathlib

/-!
Verification development for the adaptive octree point index
(`ReconstructionOcTree`, src/prototype/src/main/jni/reconstruction_octree.cc).

The C++ class is embedded shallowly.  Coordinates are modelled as rationals
(the source uses float/double; only order comparisons and halving occur, for
which `ℚ` is a faithful abstraction).  A node is modelled by a depth-indexed
inductive: the source guarantees by construction that every child is created
with `depth_ - 1`, so the depth index encodes exactly that invariant.  A
child slot is a `Slot`, mirroring the pair `is_available_[i]` (flag) and
`children_[i]` (pointer) of the source: `absent` for a cleared flag,
`present c` for a materialized child.  The four read queries are embedded in
state-passing style (result together with the post-state of the object they
were invoked on), mirroring C++ methods on a heap object; the mutator
`addPoint` returns the updated node.

Note on the constructor: the source contains the self-assignment
`position_ = position_;`, so the member keeps its default-initialized value
instead of the incoming argument; the repository design notes flag this as a
defect.  The model below performs the intended assignment; all general
theorems quantify over arbitrary stored positions and therefore cover trees
whose positions all carry the defaulted value as well.  The defect itself is
recorded under claim C1.
-/

namespace ReconstructionOcTree

/-- A 3-D coordinate (`glm::vec3` in the source). -/
structure Vec3 where
  x : ℚ
  y : ℚ
  z : ℚ
deriving DecidableEq, Repr

mutual

/-- A node of the octree.  `Tree d` is a node whose `depth_` member is `d`:
`leaf` embeds a node with `depth_ == 0` (point buffer plus the mesh state of
the reconstruction collaborator), `node` a node with `depth_ > 0`
(lazily materialized children, one slot per octant index, and the `points_`
member, which exists on every C++ node but is only ever appended to at
leaves).  The source also stores `range_`, which is never read after the
constructor computes `halfRange_`; only `halfRange_` is kept here. -/
inductive Tree : Nat → Type where
  | leaf (position : Vec3) (halfRange : ℚ) (points : List Vec3)
      (mesh : List Vec3) : Tree 0
  | node {d : Nat} (position : Vec3) (halfRange : ℚ) (points : List Vec3)
      (children : Nat → Slot d) : Tree (d + 1)

/-- One child slot of an internal node: `absent` models
`is_available_[i] == false`, `present c` models a materialized child. -/
inductive Slot : Nat → Type where
  | absent {d : Nat} : Slot d
  | present {d : Nat} : Tree d → Slot d

end

/-- Case analysis on a slot: `s.elim a f` is `a` when the slot is absent
(the `is_available_` flag cleared) and `f c` for a present child `c`,
mirroring the guard `if (is_available_[i])` of the source loops. -/
def Slot.elim {d : Nat} {α : Sort _} (s : Slot d) (a : α) (f : Tree d → α) : α :=
  match s with
  | .absent => a
  | .present c => f c

/-- The constructor `ReconstructionOcTree(position, range, depth)`:
stores the position, computes `halfRange_ = range / 2`, marks all eight
child slots absent, and (at depth 0) allocates the reconstruction
collaborator with an empty point buffer and no mesh yet.  (See the file
header for the self-assignment defect in the original.) -/
def mkTree (position : Vec3) (range : ℚ) : (depth : Nat) → Tree depth
  | 0 => .leaf position (range / 2) [] []
  | _ + 1 => .node position (range / 2) [] (fun _ => .absent)

/-- `getChildIndex` from the source: three nested comparisons of the point
against `position_ + halfRange_`, one per axis, composing an octant index
0..7 (x contributes 4, y contributes 2, z contributes 1; the low half on an
axis is selected by a strict `<`). -/
def getChildIndex (position : Vec3) (halfRange : ℚ) (point : Vec3) : Nat :=
  if point.x < position.x + halfRange then
    if point.y < position.y + halfRange then
      if point.z < position.z + halfRange then 0 else 1
    else
      if point.z < position.z + halfRange then 2 else 3
  else
    if point.y < position.y + halfRange then
      if point.z < position.z + halfRange then 4 else 5
    else
      if point.z < position.z + halfRange then 6 else 7

/-- The child origin computed by `initChild`: per axis, the high half corner
`position_ + halfRange_` when the routing location is strictly greater than
`position_ + halfRange_`, else the parent corner.  (Note the source uses
`>` here while `getChildIndex` uses `<`: the two disagree when a coordinate
equals `position_ + halfRange_` exactly; see claim C1.) -/
def childPosition (position : Vec3) (halfRange : ℚ) (location : Vec3) : Vec3 :=
  ⟨if location.x > position.x + halfRange then position.x + halfRange else position.x,
   if location.y > position.y + halfRange then position.y + halfRange else position.y,
   if location.z > position.z + halfRange then position.z + halfRange else position.z⟩

/-- `initChild`: construct a fresh child node at the computed child origin,
with `range = halfRange_` and `depth = depth_ - 1`. -/
def initChild (position : Vec3) (halfRange : ℚ) (location : Vec3) (d : Nat) :
    Tree d :=
  mkTree (childPosition position halfRange location) halfRange d

/-- `addPoint`: at a leaf, append the point to `points_`; at an internal
node, compute the octant index, materialize the child there if the slot is
absent (`initChild`), and delegate to that child. -/
def addPoint : {d : Nat} → Tree d → Vec3 → Tree d
  | 0, .leaf pos hr pts mesh, point => .leaf pos hr (pts ++ [point]) mesh
  | d + 1, .node pos hr pts ch, point =>
      .node pos hr pts
        (Function.update ch (getChildIndex pos hr point)
          (.present (addPoint
            ((ch (getChildIndex pos hr point)).elim
              (initChild pos hr point d) (fun c => c)) point)))
termination_by structural d _ _ => d

/-- `getSize`, state-passing: at a leaf the length of `points_`; at an
internal node the sum over the eight slots, absent slots contributing 0.
The second component is the node after the call (the method performs no
member writes, which theorem C10 states). -/
def getSize : {d : Nat} → Tree d → Nat × Tree d
  | 0, .leaf pos hr pts mesh => (pts.length, .leaf pos hr pts mesh)
  | _ + 1, .node pos hr pts ch =>
      (∑ i ∈ Finset.range 8, (ch i).elim 0 (fun c => (getSize c).1),
       .node pos hr pts
         (fun i => (ch i).elim .absent (fun c => .present (getSize c).2)))
termination_by structural d _ => d

/-- `getPoints`, state-passing: compute the octant index of the location;
at a leaf, or when the target slot is absent, return the own `points_`
buffer; otherwise delegate to the present child. -/
def getPoints : {d : Nat} → Tree d → Vec3 → List Vec3 × Tree d
  | 0, .leaf pos hr pts mesh, _ => (pts, .leaf pos hr pts mesh)
  | _ + 1, .node pos hr pts ch, location =>
      match ch (getChildIndex pos hr location) with
      | .absent => (pts, .node pos hr pts ch)
      | .present c =>
          ((getPoints c location).1,
           .node pos hr pts
             (Function.update ch (getChildIndex pos hr location)
               (.present (getPoints c location).2)))
termination_by structural d _ _ => d

/-- `getClusterCount`, state-passing: 1 at a leaf; at an internal node the
sum over present children. -/
def getClusterCount : {d : Nat} → Tree d → Nat × Tree d
  | 0, .leaf pos hr pts mesh => (1, .leaf pos hr pts mesh)
  | _ + 1, .node pos hr pts ch =>
      (∑ i ∈ Finset.range 8, (ch i).elim 0 (fun c => (getClusterCount c).1),
       .node pos hr pts
         (fun i => (ch i).elim .absent (fun c => .present (getClusterCount c).2)))
termination_by structural d _ => d

/-- Modelled from the spec: the reconstruction collaborator (class
`Reconstructor`, only declared in the sources under src/) is represented by
its current mesh output; per the spec, `collect_mesh` at a leaf returns
"the reconstruction collaborator mesh output (whatever it computed during
the last reconstruct(); empty if never called)", a pure read that leaves
the collaborator state unchanged.  The pair returned here is (result,
collaborator state after the call). -/
def reconstructorGetMesh (mesh : List Vec3) : List Vec3 × List Vec3 :=
  (mesh, mesh)

/-- `getMesh`, state-passing: at a leaf, the collaborator mesh; at an
internal node, a loop over slots 0..7 in ascending order appending the mesh
of every present child to an accumulator. -/
def getMesh : {d : Nat} → Tree d → List Vec3 × Tree d
  | 0, .leaf pos hr pts mesh =>
      ((reconstructorGetMesh mesh).1,
       .leaf pos hr pts (reconstructorGetMesh mesh).2)
  | _ + 1, .node pos hr pts ch =>
      ((List.range 8).foldl
        (fun acc i => (ch i).elim acc (fun c => acc ++ (getMesh c).1)) [],
       .node pos hr pts
         (fun i => (ch i).elim .absent (fun c => .present (getMesh c).2)))
termination_by structural d _ => d

/-- Insert a whole sequence of points, one `addPoint` call each, in order. -/
def insertAll {d : Nat} (t : Tree d) (ps : List Vec3) : Tree d :=
  ps.foldl addPoint t

/-- Spec-side definition (for claim C4, following the words of the spec
rather than the code): the number of distinct leaves that have received at
least one point.  Points are only ever appended, so a leaf has received at
least one point exactly when its buffer is nonempty. -/
def leavesWithPoints : {d : Nat} → Tree d → Nat
  | 0, .leaf _ _ pts _ => if pts = [] then 0 else 1
  | _ + 1, .node _ _ _ ch =>
      ∑ i ∈ Finset.range 8, (ch i).elim 0 (fun c => leavesWithPoints c)
termination_by structural d _ => d

/-- Invariant of every tree reachable by insertions from a freshly
constructed root: every materialized leaf holds at least one point, and the
`points_` buffer of every internal node is empty (the source only appends
at depth 0, and a leaf is only materialized on the way of the very point
that is then appended to it). -/
def goodTree : {d : Nat} → Tree d → Prop
  | 0, .leaf _ _ pts _ => pts ≠ []
  | d + 1, .node _ _ pts ch =>
      pts = [] ∧ ∀ (i : Nat) (c : Tree d), ch i = .present c → goodTree c
termination_by structural d _ => d

/-- Membership of a point in the cubic region `[origin, origin + range)`
per axis, the region the spec assigns to a node. -/
@[reducible] def inCube (origin : Vec3) (range : ℚ) (p : Vec3) : Prop :=
  (origin.x ≤ p.x ∧ p.x < origin.x + range) ∧
  (origin.y ≤ p.y ∧ p.y < origin.y + range) ∧
  (origin.z ≤ p.z ∧ p.z < origin.z + range)

/-! ### Helper lemmas -/

@[simp] theorem Slot.elim_absent {d : Nat} {α : Sort _} (a : α) (f : Tree d → α) :
    (Slot.absent).elim a f = a := rfl

@[simp] theorem Slot.elim_present {d : Nat} {α : Sort _} (c : Tree d) (a : α)
    (f : Tree d → α) : (Slot.present c).elim a f = f c := rfl

/-- The nested conditionals of `getChildIndex` only ever return 0..7. -/
theorem getChildIndex_lt (position : Vec3) (halfRange : ℚ) (point : Vec3) :
    getChildIndex position halfRange point < 8 := by
  unfold getChildIndex
  repeat' split
  all_goals omega

/-- Summing a per-slot quantity after one slot was overwritten: the new
value of that slot plus the old contributions of the other seven. -/
theorem sum_slots_update {d : Nat} (ch : Nat → Slot d) (f : Tree d → ℕ)
    (i : Nat) (hi : i < 8) (v : Slot d) :
    (∑ j ∈ Finset.range 8, (Function.update ch i v j).elim 0 f)
      = v.elim 0 f + ∑ j ∈ (Finset.range 8).erase i, (ch j).elim 0 f := by
  rw [← Finset.add_sum_erase _ (fun j => (Function.update ch i v j).elim 0 f)
    (Finset.mem_range.mpr hi), Function.update_same]
  refine congrArg (v.elim 0 f + ·) (Finset.sum_congr rfl fun j hj => ?_)
  rw [Function.update_noteq (Finset.ne_of_mem_erase hj)]

/-- Splitting the sum over the eight slots at one index below 8. -/
theorem sum_slots_pick {d : Nat} (ch : Nat → Slot d) (f : Tree d → ℕ)
    (i : Nat) (hi : i < 8) :
    (∑ j ∈ Finset.range 8, (ch j).elim 0 f)
      = (ch i).elim 0 f + ∑ j ∈ (Finset.range 8).erase i, (ch j).elim 0 f :=
  (Finset.add_sum_erase _ _ (Finset.mem_range.mpr hi)).symm

/-- Inserting a list element by element, unfolded one step. -/
theorem insertAll_cons {d : Nat} (t : Tree d) (p : Vec3) (ps : List Vec3) :
    insertAll t (p :: ps) = insertAll (addPoint t p) ps := rfl

/-- A freshly constructed node holds no points at all. -/
theorem getSize_mkTree (position : Vec3) (range : ℚ) (depth : Nat) :
    (getSize (mkTree position range depth)).1 = 0 := by
  cases depth <;> simp [mkTree, getSize]

/-- Key step behind C3: one `addPoint` call grows the total point count by
exactly one, on every tree. -/
theorem getSize_addPoint : ∀ {d : Nat} (t : Tree d) (p : Vec3),
    (getSize (addPoint t p)).1 = (getSize t).1 + 1 := by
  intro d
  induction d with
  | zero =>
    intro t p
    cases t with
    | leaf pos hr pts mesh => simp [addPoint, getSize]
  | succ d ih =>
    intro t p
    cases t with
    | node pos hr pts ch =>
      have hlt := getChildIndex_lt pos hr p
      simp only [addPoint, getSize]
      rw [sum_slots_update ch _ _ hlt, sum_slots_pick ch _ _ hlt]
      cases hc : ch (getChildIndex pos hr p) with
      | absent =>
        simp only [hc, Slot.elim_absent, Slot.elim_present]
        rw [ih]
        simp [initChild, getSize_mkTree]
        omega
      | present c =>
        simp only [hc, Slot.elim_present]
        rw [ih]
        omega

/-- The total point count after a whole insertion sequence. -/
theorem getSize_insertAll : ∀ (ps : List Vec3) {d : Nat} (t : Tree d),
    (getSize (insertAll t ps)).1 = (getSize t).1 + ps.length := by
  intro ps
  induction ps with
  | nil => intro d t; simp [insertAll]
  | cons p ps ih =>
    intro d t
    rw [insertAll_cons, ih, getSize_addPoint]
    simp
    omega

/-- C3: for every root (any origin, range, depth) and every finite sequence
of inserted points, `size()` after the insertions is exactly the number of
`insert` calls made: no point is silently dropped and none is counted
twice. -/
theorem C3_size_counts_all_inserts (position : Vec3) (range : ℚ) (depth : Nat)
    (ps : List Vec3) :
    (getSize (insertAll (mkTree position range depth) ps)).1 = ps.length := by
  rw [getSize_insertAll, getSize_mkTree]
  omega


/-- A point inserted into a freshly constructed subtree yields a good
subtree: the chain of nodes materialized on the way ends in a leaf that
immediately receives the point. -/
theorem goodTree_addPoint_mkTree : ∀ (d : Nat) (position : Vec3) (range : ℚ)
    (p : Vec3), goodTree (addPoint (mkTree position range d) p) := by
  intro d
  induction d with
  | zero =>
    intro pos r p
    simp [mkTree, addPoint, goodTree]
  | succ d ih =>
    intro pos r p
    simp only [mkTree, addPoint, Slot.elim_absent, goodTree]
    refine ⟨trivial, fun i c hic => ?_⟩
    by_cases hi : i = getChildIndex pos (r / 2) p
    · subst hi
      rw [Function.update_same] at hic
      injection hic with hd hc
      subst hc
      exact ih _ _ _
    · rw [Function.update_noteq hi] at hic
      cases hic

/-- `addPoint` preserves the reachability invariant. -/
theorem goodTree_addPoint : ∀ {d : Nat} (t : Tree d) (p : Vec3),
    goodTree t → goodTree (addPoint t p) := by
  intro d
  induction d with
  | zero =>
    intro t p h
    cases t with
    | leaf pos hr pts mesh => simp [addPoint, goodTree]
  | succ d ih =>
    intro t p h
    cases t with
    | node pos hr pts ch =>
      simp only [goodTree] at h
      obtain ⟨hpts, hch⟩ := h
      simp only [addPoint, goodTree]
      refine ⟨hpts, fun i c hic => ?_⟩
      by_cases hi : i = getChildIndex pos hr p
      · subst hi
        rw [Function.update_same] at hic
        injection hic with hd hc
        subst hc
        cases hcs : ch (getChildIndex pos hr p) with
        | absent =>
          simp only [hcs, Slot.elim_absent, initChild]
          exact goodTree_addPoint_mkTree d _ _ p
        | present c0 =>
          simp only [hcs, Slot.elim_present]
          exact ih c0 p (hch _ c0 hcs)
      · rw [Function.update_noteq hi] at hic
        exact hch i c hic

/-- A freshly constructed internal root is good (no leaves yet). -/
theorem goodTree_mkTree_succ (position : Vec3) (range : ℚ) (d : Nat) :
    goodTree (mkTree position range (d + 1)) := by
  simp only [mkTree, goodTree]
  exact ⟨trivial, fun i c h => by cases h⟩

/-- Every tree reachable from a freshly constructed internal root by a
sequence of insertions is good: all its internal nodes have an empty point
buffer and all its materialized leaves hold at least one point. -/
theorem goodTree_insertAll : ∀ (ps : List Vec3) {d : Nat} (t : Tree d),
    goodTree t → goodTree (insertAll t ps) := by
  intro ps
  induction ps with
  | nil => intro d t h; exact h
  | cons p ps ih =>
    intro d t h
    rw [insertAll_cons]
    exact ih _ (goodTree_addPoint t p h)

/-- On good trees the code count (`getClusterCount`) agrees with the spec
count (number of leaves with a nonempty buffer). -/
theorem clusterCount_eq_leaves : ∀ {d : Nat} (t : Tree d),
    goodTree t → (getClusterCount t).1 = leavesWithPoints t := by
  intro d
  induction d with
  | zero =>
    intro t h
    cases t with
    | leaf pos hr pts mesh =>
      simp only [goodTree] at h
      simp [getClusterCount, leavesWithPoints, h]
  | succ d ih =>
    intro t h
    cases t with
    | node pos hr pts ch =>
      simp only [goodTree] at h
      obtain ⟨-, hch⟩ := h
      simp only [getClusterCount, leavesWithPoints]
      refine Finset.sum_congr rfl fun j hj => ?_
      cases hc : ch j with
      | absent => simp
      | present c => simp [ih c (hch j c hc)]

/-- C4 (amended): for every root of depth at least 1 and every insertion
sequence whose points lie inside the root cube (including the empty
sequence), `cluster_count()` returns the number of distinct leaves that
have received at least one point.  (The original claim, quantifying over
every root, fails for a depth-0 root with no insertions, where the root
itself is a leaf and is counted before any point arrives; see
`C4_depth_zero_counterexample`.) -/
theorem C4_cluster_count_amended (position : Vec3) (range : ℚ) (d : Nat)
    (ps : List Vec3) (_hin : ∀ p ∈ ps, inCube position range p) :
    (getClusterCount (insertAll (mkTree position range (d + 1)) ps)).1
      = leavesWithPoints (insertAll (mkTree position range (d + 1)) ps) :=
  clusterCount_eq_leaves _
    (goodTree_insertAll ps _ (goodTree_mkTree_succ position range d))

/-- C4 as frozen is false: a depth-0 root with the empty insertion sequence
(trivially within bounds) reports `cluster_count() = 1` while zero leaves
have received a point. -/
theorem C4_depth_zero_counterexample :
    ¬ ((getClusterCount (insertAll (mkTree ⟨0, 0, 0⟩ 8 0) [])).1
        = leavesWithPoints (insertAll (mkTree ⟨0, 0, 0⟩ 8 0) [])) := by
  norm_num [insertAll, mkTree, getClusterCount, leavesWithPoints]

/-- Witness for `C4_cluster_count_amended` at a concrete input: depth-1
root over the cube at the origin with range 8, one in-bounds insertion. -/
theorem C4_amended_witness :
    (∀ p ∈ ([⟨1, 1, 1⟩] : List Vec3), inCube ⟨0, 0, 0⟩ 8 p) ∧
    (getClusterCount (insertAll (mkTree ⟨0, 0, 0⟩ 8 1) [⟨1, 1, 1⟩])).1
      = leavesWithPoints (insertAll (mkTree ⟨0, 0, 0⟩ 8 1) [⟨1, 1, 1⟩]) :=
  ⟨by intro p hp; simp only [List.mem_singleton] at hp; subst hp; norm_num [inCube],
   C4_cluster_count_amended ⟨0, 0, 0⟩ 8 0 [⟨1, 1, 1⟩]
     (by intro p hp; simp only [List.mem_singleton] at hp; subst hp; norm_num [inCube])⟩


/-- `getSize` performs no member writes: the post-state equals the
pre-state. -/
theorem getSize_state : ∀ {d : Nat} (t : Tree d), (getSize t).2 = t := by
  intro d
  induction d with
  | zero =>
    intro t
    cases t with
    | leaf pos hr pts mesh => rfl
  | succ d ih =>
    intro t
    cases t with
    | node pos hr pts ch =>
      simp only [getSize]
      congr 1
      funext j
      cases hc : ch j with
      | absent => simp
      | present c => simp [ih c]

/-- `getClusterCount` performs no member writes. -/
theorem getClusterCount_state : ∀ {d : Nat} (t : Tree d),
    (getClusterCount t).2 = t := by
  intro d
  induction d with
  | zero =>
    intro t
    cases t with
    | leaf pos hr pts mesh => rfl
  | succ d ih =>
    intro t
    cases t with
    | node pos hr pts ch =>
      simp only [getClusterCount]
      congr 1
      funext j
      cases hc : ch j with
      | absent => simp
      | present c => simp [ih c]

/-- `getMesh` performs no member writes (for its leaf case this rests on
the spec-modelled collaborator read, see `reconstructorGetMesh`). -/
theorem getMesh_state : ∀ {d : Nat} (t : Tree d), (getMesh t).2 = t := by
  intro d
  induction d with
  | zero =>
    intro t
    cases t with
    | leaf pos hr pts mesh => rfl
  | succ d ih =>
    intro t
    cases t with
    | node pos hr pts ch =>
      simp only [getMesh]
      congr 1
      funext j
      cases hc : ch j with
      | absent => simp
      | present c => simp [ih c]

/-- `getPoints` performs no member writes; in particular it never
materializes the absent child slot it routes into. -/
theorem getPoints_state : ∀ {d : Nat} (t : Tree d) (location : Vec3),
    (getPoints t location).2 = t := by
  intro d
  induction d with
  | zero =>
    intro t location
    cases t with
    | leaf pos hr pts mesh => rfl
  | succ d ih =>
    intro t location
    cases t with
    | node pos hr pts ch =>
      cases hc : ch (getChildIndex pos hr location) with
      | absent => simp [getPoints, hc]
      | present c =>
        simp only [getPoints, hc]
        rw [ih c location, ← hc, Function.update_eq_self]

/-- C10: the read queries `size()`, `cluster_count()`,
`points_near(location)` and `collect_mesh()` leave the whole tree exactly
as it was: every node keeps its position, half range, depth, point buffer
and set of materialized child slots; in particular `points_near` never
materializes the absent child it would route into, unlike `insert`.
(The `collect_mesh` leg relies on the spec-modelled collaborator read.) -/
theorem C10_read_queries_frame {d : Nat} (t : Tree d) (location : Vec3) :
    (getSize t).2 = t ∧ (getClusterCount t).2 = t ∧
    (getPoints t location).2 = t ∧ (getMesh t).2 = t :=
  ⟨getSize_state t, getClusterCount_state t, getPoints_state t location,
   getMesh_state t⟩

/-- C9: calling `collect_mesh()` twice in succession, with no intervening
insert or reconstruct, yields identical output on both calls: the second
call runs on the post-state of the first and returns the same mesh.
(Relies on the spec-modelled collaborator read at leaves.) -/
theorem C9_collect_mesh_idempotent {d : Nat} (t : Tree d) :
    (getMesh ((getMesh t).2)).1 = (getMesh t).1 := by
  rw [getMesh_state]

/-- After `addPoint t p`, querying `getPoints` at `p` itself reaches the
very leaf the insertion ended at, whose buffer now ends in `p`. -/
theorem getPoints_addPoint_concat : ∀ {d : Nat} (t : Tree d) (p : Vec3),
    ∃ l, (getPoints (addPoint t p) p).1 = l ++ [p] := by
  intro d
  induction d with
  | zero =>
    intro t p
    cases t with
    | leaf pos hr pts mesh => exact ⟨pts, by simp [addPoint, getPoints]⟩
  | succ d ih =>
    intro t p
    cases t with
    | node pos hr pts ch =>
      simp only [addPoint, getPoints, Function.update_same]
      exact ih _ p

/-- C5: for every root state and every point `p`, `points_near(p)` run
immediately after `insert(p)` (no other insertions in between) returns a
sequence containing `p`. -/
theorem C5_roundtrip_contains {d : Nat} (t : Tree d) (p : Vec3) :
    p ∈ (getPoints (addPoint t p) p).1 := by
  obtain ⟨l, hl⟩ := getPoints_addPoint_concat t p
  rw [hl]
  simp

/-- C6: for every point, inside or outside the root cube, `octant_index`
returns a value in 0..7 (a pure comparison, no bound check) and `insert`
completes by appending the point at the end of the buffer of the leaf it
routes to; there is no rejection path.  (The second part is stated through
`getPoints`, which returns exactly the buffer of the routed-to leaf.) -/
theorem C6_silent_acceptance (position : Vec3) (halfRange : ℚ) (q : Vec3)
    {d : Nat} (t : Tree d) (p : Vec3) :
    getChildIndex position halfRange q < 8 ∧
    ((getPoints (addPoint t p) p).1).getLast? = some p := by
  refine ⟨getChildIndex_lt position halfRange q, ?_⟩
  obtain ⟨l, hl⟩ := getPoints_addPoint_concat t p
  rw [hl, List.getLast?_concat]

/-- C7: on an internal node whose own point buffer is empty (which holds
for every internal node the program ever builds, see `goodTree_insertAll`)
and whose child slot at the routed octant index is absent,
`points_near(location)` returns the empty sequence and changes nothing:
no child is materialized. -/
theorem C7_points_near_absent_slot {d : Nat} (position : Vec3)
    (halfRange : ℚ) (ch : Nat → Slot d) (location : Vec3)
    (h : ch (getChildIndex position halfRange location) = Slot.absent) :
    getPoints (Tree.node position halfRange [] ch) location
      = ([], Tree.node position halfRange [] ch) := by
  simp [getPoints, h]

/-- Witness for `C7_points_near_absent_slot`: a depth-1 root with no
children, queried at (1,1,1). -/
theorem C7_witness :
    ((fun _ => (Slot.absent : Slot 0)) (getChildIndex ⟨0, 0, 0⟩ 4 ⟨1, 1, 1⟩)
        = Slot.absent) ∧
    getPoints (Tree.node ⟨0, 0, 0⟩ 4 [] (fun _ => (Slot.absent : Slot 0))) ⟨1, 1, 1⟩
      = ([], Tree.node ⟨0, 0, 0⟩ 4 [] (fun _ => (Slot.absent : Slot 0))) :=
  ⟨rfl, C7_points_near_absent_slot ⟨0, 0, 0⟩ 4 (fun _ => Slot.absent) ⟨1, 1, 1⟩ rfl⟩


/-- Folding list append over a list of generators, starting from any
accumulator, concatenates the generated lists in order. -/
theorem foldl_append_flatten {α β : Type _} (g : α → List β) :
    ∀ (l : List α) (acc : List β),
      l.foldl (fun a i => a ++ g i) acc = acc ++ (l.map g).flatten := by
  intro l
  induction l with
  | nil => intro acc; simp
  | cons x xs ih => intro acc; simp [ih]

/-- C8: on every internal node, `collect_mesh()` is the concatenation of
the children mesh results taken in ascending octant-index order 0..7, with
absent child slots contributing nothing. -/
theorem C8_mesh_concat_in_index_order {d : Nat} (position : Vec3)
    (halfRange : ℚ) (points : List Vec3) (ch : Nat → Slot d) :
    (getMesh (Tree.node position halfRange points ch)).1
      = ((List.range 8).map
          (fun i => (ch i).elim [] (fun c => (getMesh c).1))).flatten := by
  simp only [getMesh]
  have hfun : (fun (acc : List Vec3) (i : Nat) =>
        (ch i).elim acc (fun c => acc ++ (getMesh c).1))
      = fun acc i => acc ++ (ch i).elim [] (fun c => (getMesh c).1) := by
    funext acc i
    cases hc : ch i <;> simp
  rw [hfun, foldl_append_flatten]
  simp

/-- C1 (records a code bug): route the point (1,0,0) through a parent with
origin (0,0,0) and half range 1, so that the x coordinate equals
`origin.x + half_range` exactly.  `getChildIndex` uses `<` and therefore
selects the high x half (octant index 4), while the `initChild` origin
computation uses `>` and therefore keeps the low corner (0,0,0): the child
materialized in the high-x slot covers the low-x octant region, against the
claim that both selections agree on every axis, including at equality.
(Additionally, the constructor self-assignment `position_ = position_;`
discards the computed child origin altogether.) -/
theorem C1_threshold_mismatch :
    getChildIndex ⟨0, 0, 0⟩ 1 ⟨1, 0, 0⟩ = 4 ∧
    childPosition ⟨0, 0, 0⟩ 1 ⟨1, 0, 0⟩ = ⟨0, 0, 0⟩ := by
  constructor
  · norm_num [getChildIndex]
  · norm_num [childPosition]

/-- C2 as frozen is false: in the stated scenario (root at the origin,
range 8, depth 2; insert (1,1,1), (7,7,7), (1,1,7)) the three points take
the three pairwise distinct first-level octants 0, 7 and 1 — (1,1,1) and
(1,1,7) differ on the z comparison against 4 — so three leaves are
materialized and `cluster_count()` returns 3, not 2. -/
theorem C2_cluster_count_counterexample :
    ¬ ((getSize (insertAll (mkTree ⟨0, 0, 0⟩ 8 2)
          [⟨1, 1, 1⟩, ⟨7, 7, 7⟩, ⟨1, 1, 7⟩])).1 = 3 ∧
       (getClusterCount (insertAll (mkTree ⟨0, 0, 0⟩ 8 2)
          [⟨1, 1, 1⟩, ⟨7, 7, 7⟩, ⟨1, 1, 7⟩])).1 = 2 ∧
       (getPoints (insertAll (mkTree ⟨0, 0, 0⟩ 8 2)
          [⟨1, 1, 1⟩, ⟨7, 7, 7⟩, ⟨1, 1, 7⟩]) ⟨1, 1, 1⟩).1 = [⟨1, 1, 1⟩] ∧
       (getPoints (insertAll (mkTree ⟨0, 0, 0⟩ 8 2)
          [⟨1, 1, 1⟩, ⟨7, 7, 7⟩, ⟨1, 1, 7⟩]) ⟨7, 7, 7⟩).1 = [⟨7, 7, 7⟩]) := by
  intro h
  have h2 := h.2.1
  norm_num [insertAll, addPoint, getClusterCount, getChildIndex, initChild,
    mkTree, childPosition, Function.update, Slot.elim, Finset.sum_range_succ] at h2

/-- C2 (amended): for the root at origin (0,0,0) with range 8 and depth 2,
after inserting exactly (1,1,1), (7,7,7), (1,1,7) in that order: `size()`
returns 3, `cluster_count()` returns 3 (each point lands in its own leaf),
`points_near((1,1,1))` returns exactly [(1,1,1)] and `points_near((7,7,7))`
returns exactly [(7,7,7)]. -/
theorem C2_concrete_scenario :
    (getSize (insertAll (mkTree ⟨0, 0, 0⟩ 8 2)
        [⟨1, 1, 1⟩, ⟨7, 7, 7⟩, ⟨1, 1, 7⟩])).1 = 3 ∧
    (getClusterCount (insertAll (mkTree ⟨0, 0, 0⟩ 8 2)
        [⟨1, 1, 1⟩, ⟨7, 7, 7⟩, ⟨1, 1, 7⟩])).1 = 3 ∧
    (getPoints (insertAll (mkTree ⟨0, 0, 0⟩ 8 2)
        [⟨1, 1, 1⟩, ⟨7, 7, 7⟩, ⟨1, 1, 7⟩]) ⟨1, 1, 1⟩).1 = [⟨1, 1, 1⟩] ∧
    (getPoints (insertAll (mkTree ⟨0, 0, 0⟩ 8 2)
        [⟨1, 1, 1⟩, ⟨7, 7, 7⟩, ⟨1, 1, 7⟩]) ⟨7, 7, 7⟩).1 = [⟨7, 7, 7⟩] := by
  refine ⟨?_, ?_, ?_, ?_⟩ <;>
    norm_num [insertAll, addPoint, getSize, getPoints, getClusterCount,
      getChildIndex, initChild, mkTree, childPosition, Function.update,
      Slot.elim, Finset.sum_range_succ]

end ReconstructionOcTree
